import Mathlib

/-!
Shallow embedding of the `pcopylib` copy/dedup engine (package `pcopylib`,
files `pcopy.go` front end and the library source) and proofs about it.

Modelling conventions:
* The filesystem is a finite association list from path strings to nodes.
  A node is either a regular file (its byte content as `List Nat`, plus a
  `readable` flag so that `os.Open` can fail with a permission error even
  though `os.Stat` succeeded) or a directory.
* Go's `error` results are modelled with `Bool` error flags or `Option`/
  `Except`; a Go runtime panic (nil-`FileInfo` dereference) is modelled as
  `none` of an `Option` result.
* The MD5 digest of the byte stream fed into the accumulator is abstracted
  as a parameter `md5hex : List Nat -> String`; the real `md5.Sum` hex
  rendering always yields a non-empty 32-character string, which theorems
  take as a hypothesis where needed.
* Environmental I/O failures that the static model cannot derive from the
  file map (a mid-stream read/write error during `io.Copy`, a failing
  `Close`, a cross-device `os.Rename` failure) are injected through
  `EnvFlags`.
* Paths are compared byte-wise in Go; on UTF-8 strings byte-wise order and
  code-point order coincide, and the model works with `List Char` data.
* The worker pool of `CopyDirectory` is sequentialised: the walker and the
  job consumers are composed into one deterministic traversal.
-/

/-- Node of the modelled filesystem: a regular file with content and a
readability flag, or a directory. -/
inductive FSNode where
  | file (content : List Nat) (readable : Bool)
  | dir
deriving DecidableEq

/-- A filesystem is a finite association list from paths to nodes. -/
abbrev FS := List (String × FSNode)

/-- Lookup of a path, modelling `os.Stat`: `none` when the stat fails
because no entry exists at the path. -/
def statFS : FS → String → Option FSNode
  | [], _ => none
  | (q, n) :: rest, p => if p = q then some n else statFS rest p

/-- Removal of a path's entry, modelling a successful `os.Remove` (and the
removal half of `os.Rename`). Removing an absent path is a no-op. -/
def removeFS : FS → String → FS
  | [], _ => []
  | (q, n) :: rest, p => if q = p then removeFS rest p else (q, n) :: removeFS rest p

/-- Create or overwrite the entry at a path, modelling `os.Create` /
the placement half of `os.Rename` / `os.MkdirAll`. -/
def setFS (fs : FS) (p : String) (n : FSNode) : FS :=
  (p, n) :: removeFS fs p

/-- The three-valued path classification of the engine, from `FileExistStatus`. -/
inductive FileExistStatus where
  | File
  | Directory
  | NotExist
deriving DecidableEq

/-- Path prober, from `IsFileExist`: any stat failure maps to `NotExist`,
a directory to `Directory`, anything else to `File`. -/
def IsFileExist (fs : FS) (path : String) : FileExistStatus :=
  match statFS fs path with
  | none => FileExistStatus.NotExist
  | some FSNode.dir => FileExistStatus.Directory
  | some (FSNode.file _ _) => FileExistStatus.File

/-- Size reported by `FileInfo.Size()`: the byte length for a regular file;
for a directory the value is filesystem-dependent and modelled as 4096. -/
def nodeSize : FSNode → Int
  | FSNode.file c _ => c.length
  | FSNode.dir => 4096

/-- Full-file digest, from `getFullHash`: open the file and stream it into
one MD5 accumulator. An `os.Open` failure returns the empty string. Opening
a directory succeeds but the streaming read fails, and that error is
discarded by the code, so the digest of the empty stream is returned. -/
def getFullHash (md5hex : List Nat → String) (fs : FS) (filename : String) : String :=
  match statFS fs filename with
  | none => ""
  | some (FSNode.file _ false) => ""
  | some (FSNode.file c true) => md5hex c
  | some FSNode.dir => md5hex []

/-- The 50 KiB window size of the sampled strategy, from `blockSize`. -/
def blockSize : Int := 50 * 1024

/-- The four sampling offsets of `getParticalHash`, in source order. Go's
`int64` division truncates toward zero, modelled by `Int.tdiv`. -/
def blockOffsets (filesize : Int) : List Int :=
  [0, (filesize - blockSize).tdiv 3, (2 * (filesize - blockSize)).tdiv 3, filesize - blockSize]

/-- One `file.Seek(offset, 0)` followed by `io.CopyN(md5Hash, file, blockSize)`:
a negative offset makes the seek fail (the code ignores the error) and leaves
the position unchanged; the read then takes up to `blockSize` bytes from the
current position. Returns the bytes fed to the accumulator and the new
position. -/
def seekRead (c : List Nat) (pos : Nat) (off : Int) : List Nat × Nat :=
  let pos1 := if 0 ≤ off then off.toNat else pos
  let chunk := (c.drop pos1).take blockSize.toNat
  (chunk, pos1 + chunk.length)

/-- The byte stream fed into the single MD5 accumulator by the sampled
strategy: the windows of all offsets, concatenated in order. -/
def readWindows (c : List Nat) (offs : List Int) : List Nat × Nat :=
  offs.foldl (fun acc off =>
    let r := seekRead c acc.2 off
    (acc.1 ++ r.1, r.2)) ([], 0)

/-- Sampled digest, from `getParticalHash`: open the file, and for each of
the four `blockOffsets` seek there and feed a 50 KiB window into one MD5
accumulator. An `os.Open` failure returns the empty string; for a directory
the reads fail silently and the digest of the empty stream is returned. -/
def getParticalHash (md5hex : List Nat → String) (fs : FS) (filename : String)
    (filesize : Int) : String :=
  match statFS fs filename with
  | none => ""
  | some (FSNode.file _ false) => ""
  | some (FSNode.file c true) => md5hex (readWindows c (blockOffsets filesize)).1
  | some FSNode.dir => md5hex []

/-- Content comparator, from `hasSameContent`. The Go code discards both
`os.Stat` errors and then calls `Size()` on the returned `FileInfo`; when
either stat failed that value is nil and the call panics, modelled as
`none`. Otherwise: sizes must match; the sampled digests are used exactly
when `fullHashMode` is false and the source size exceeds 500 KiB, the
full digests otherwise; equality additionally requires both digests to be
non-empty. -/
def hasSameContent (md5hex : List Nat → String) (fs : FS) (source target : String)
    (fullHashMode : Bool) : Option Bool :=
  match statFS fs source, statFS fs target with
  | some fiSource, some fiTarget =>
    let srcSize := nodeSize fiSource
    let dstSize := nodeSize fiTarget
    if srcSize ≠ dstSize then some false
    else
      let srcMD5 := if !fullHashMode && decide (srcSize > 500 * 1024) then
          getParticalHash md5hex fs source srcSize
        else getFullHash md5hex fs source
      let dstMD5 := if !fullHashMode && decide (srcSize > 500 * 1024) then
          getParticalHash md5hex fs target dstSize
        else getFullHash md5hex fs target
      some (srcMD5 == dstMD5 && srcMD5.length != 0 && dstMD5.length != 0)
  | _, _ => none

/-- Decimal digit characters of a natural number, least significant first,
with structural fuel (the fuel `n + 1` always suffices). -/
def digitsRevAux : Nat → Nat → List Char
  | 0, _ => []
  | fuel + 1, n =>
    if n < 10 then [Char.ofNat (48 + n)]
    else Char.ofNat (48 + n % 10) :: digitsRevAux fuel (n / 10)

/-- Decimal rendering of a natural number, modelling `strconv.Itoa` (the
rename indices of the engine are always positive). -/
def itoa (n : Nat) : String :=
  ⟨(digitsRevAux (n + 1) n).reverse⟩

/-- Scan of the reversed character list of a path, modelling the loop of
`filepath.Ext`: walk backwards until a path separator (no extension) or a
dot (the extension starts there, dot included). `seen` accumulates the
already-scanned suffix in source order. -/
def extScan : List Char → List Char → List Char
  | [], _ => []
  | c :: cs, seen =>
    if c = '/' then []
    else if c = '.' then c :: seen
    else extScan cs (c :: seen)

/-- Extension of a path, from `filepath.Ext`: the suffix starting at the
final dot of the last path element, empty if there is none. -/
def filepathExt (path : String) : String :=
  ⟨extScan path.data.reverse []⟩

/-- Candidate-name generator, from `renameFile`: insert `(idx)` between the
stem and the extension of the desired target name. -/
def renameFile (target : String) (idx : Nat) : String :=
  let extName := filepathExt target
  String.mk (target.data.take (target.data.length - extName.data.length))
    ++ "(" ++ itoa idx ++ ")" ++ extName

/-- Environmental failures injected into the model: a mid-stream `io.Copy`
error, a failing `Close` of the target, and a failing `os.Rename`
(for example across a mount boundary). -/
structure EnvFlags where
  copyFails : Bool
  closeFails : Bool
  renameFails : Bool

/-- Result of a transfer primitive: whether the Go function returned an
error, and the filesystem afterwards. -/
structure CopyResult where
  err : Bool
  fs : FS

/-- Byte copy of one file, from `doCopy`: stat the source, open it, create
(truncating) the target, stream the bytes, close, then replicate mode and
times (the latter two are metadata the model does not track). Every step's
error is returned to the caller; on a failure after creation the partially
written target is left in place. `os.Create` fails if the target is an
existing directory. Opening a directory as source succeeds but the
streaming read then fails, after the target was already truncated. -/
def doCopy (env : EnvFlags) (fs : FS) (source target : String) : CopyResult :=
  match statFS fs source with
  | none => ⟨true, fs⟩
  | some FSNode.dir =>
    match statFS fs target with
    | some FSNode.dir => ⟨true, fs⟩
    | _ => ⟨true, setFS fs target (FSNode.file [] true)⟩
  | some (FSNode.file c readable) =>
    if readable then
      match statFS fs target with
      | some FSNode.dir => ⟨true, fs⟩
      | _ =>
        let fsCreated := setFS fs target (FSNode.file [] true)
        if env.copyFails then ⟨true, fsCreated⟩
        else
          let fsCopied := setFS fsCreated target (FSNode.file c true)
          if env.closeFails then ⟨true, fsCopied⟩
          else ⟨false, fsCopied⟩
    else ⟨true, fs⟩

/-- Model of `os.Rename`: fails without effect when the environment says the
rename primitive is unavailable (cross-device), when the source does not
exist, or when the target is an existing directory; otherwise the node
moves to the target path (replacing a regular file there). -/
def renameFS (env : EnvFlags) (fs : FS) (source target : String) : CopyResult :=
  if env.renameFails then ⟨true, fs⟩
  else
    match statFS fs source with
    | none => ⟨true, fs⟩
    | some n =>
      match statFS fs target with
      | some FSNode.dir => ⟨true, fs⟩
      | _ => ⟨false, setFS (removeFS fs source) target n⟩

/-- Filesystem effect of `doCopyOrMove`: `os.Rename` in move mode, `doCopy`
otherwise. The error of the chosen primitive is discarded by the Go code. -/
def transferFS (env : EnvFlags) (fs : FS) (source target : String) (moveMode : Bool) : FS :=
  if moveMode then (renameFS env fs source target).fs
  else (doCopy env fs source target).fs

/-- Single-entry transfer, from `doCopyOrMove`: performs the rename or the
byte copy, ignores its error, prints a transfer record, and returns nil
unconditionally. -/
def doCopyOrMove (env : EnvFlags) (fs : FS) (source target : String)
    (moveMode : Bool) : Except Unit FS :=
  Except.ok (transferFS env fs source target moveMode)

/-- Result of the collision-resolution loop of `CopyFileInternal`: the final
candidate, a modelled panic (nil-`FileInfo` dereference inside
`hasSameContent`), or exhaustion of the model's fuel (proved unreachable
for the fuel used). -/
inductive ResolveResult where
  | found (newTarget : String)
  | panicked
  | fuelOut
deriving DecidableEq

/-- The collision-resolution loop of `CopyFileInternal`:
`for IsFileExist(newTarget) != NotExist && !hasSameContent(...)` with the
next candidate generated from the original `target` and an increasing
index. The conjunction short-circuits: a free candidate is accepted without
a content comparison. -/
def resolveLoop (md5hex : List Nat → String) (fs : FS) (source target : String)
    (fullHashMode : Bool) : Nat → String → Nat → ResolveResult
  | 0, _, _ => ResolveResult.fuelOut
  | fuel + 1, newTarget, renameIdx =>
    if IsFileExist fs newTarget = FileExistStatus.NotExist then
      ResolveResult.found newTarget
    else
      match hasSameContent md5hex fs source newTarget fullHashMode with
      | none => ResolveResult.panicked
      | some true => ResolveResult.found newTarget
      | some false =>
        resolveLoop md5hex fs source target fullHashMode fuel
          (renameFile target renameIdx) (renameIdx + 1)

/-- Terminal outcome of the single-file copy path: a transfer to the given
path, or a skip because the path holds a content duplicate. -/
inductive Outcome where
  | transferred (path : String)
  | skipped (path : String)
deriving DecidableEq

/-- Single-file copy path, from `CopyFileInternal`: transfer straight away
when the target is absent; otherwise run the collision-resolution loop,
re-probe the resolved candidate, and either transfer there or skip as a
duplicate (deleting the source in move mode). `none` models a panic. The
fuel `fs.length + 2` is ample: the candidate names are pairwise distinct so
a free one is reached before the fuel runs out. -/
def CopyFileInternal (md5hex : List Nat → String) (env : EnvFlags) (fs : FS)
    (source target : String) (moveMode fullHashMode : Bool) : Option (Outcome × FS) :=
  if IsFileExist fs target = FileExistStatus.NotExist then
    some (Outcome.transferred target, transferFS env fs source target moveMode)
  else
    match resolveLoop md5hex fs source target fullHashMode (fs.length + 2) target 1 with
    | ResolveResult.panicked => none
    | ResolveResult.fuelOut => none
    | ResolveResult.found newTarget =>
      if IsFileExist fs newTarget = FileExistStatus.NotExist then
        some (Outcome.transferred newTarget, transferFS env fs source newTarget moveMode)
      else
        some (Outcome.skipped newTarget, if moveMode then removeFS fs source else fs)

/-- Relative path of `p` under `source`, from the Go slice `p[len(source)+1:]`
(clamped instead of panicking when `p` is too short; the walker only forms
it for strict descendants of the source root). -/
def relFrom (source p : String) : String :=
  ⟨p.data.drop (source.data.length + 1)⟩

/-- Join of two path elements, from `filepath.Join` restricted to the inputs
the engine produces (no empty-segment cleaning beyond the two arguments). -/
def pathJoin (a b : String) : String :=
  if a = "" then b else if b = "" then a else a ++ "/" ++ b

/-- Last path element, from `filepath.Base` restricted to the slash-free
normal inputs of the engine. -/
def baseName (p : String) : String :=
  if p = "" then "." else ⟨(p.data.reverse.takeWhile (fun c => c ≠ '/')).reverse⟩

/-- All but the last path element, from `filepath.Dir` restricted to the
relative inputs of the engine: `"."` when the path has no separator. -/
def dirName (p : String) : String :=
  let pre := p.data.reverse.dropWhile (fun c => c ≠ '/')
  if pre = [] then "." else ⟨(pre.drop 1).reverse⟩

/-- Single-file front door, from `CopyFile`: when the target is an existing
directory, copy into it under the source's base name; otherwise require the
target's parent directory to exist (surfacing an error if not) and run
`CopyFileInternal` on the target itself. `none` models a panic inside
`CopyFileInternal`. -/
def CopyFile (md5hex : List Nat → String) (env : EnvFlags) (fs : FS)
    (source target : String) (moveMode fullHashMode : Bool) : Option (Except Unit FS) :=
  if IsFileExist fs target = FileExistStatus.Directory then
    (CopyFileInternal md5hex env fs source (pathJoin target (baseName source))
        moveMode fullHashMode).map (fun r => Except.ok r.2)
  else
    let targetPath := dirName target
    let targetPath := if targetPath.length = 0 then "./" else targetPath
    if IsFileExist fs targetPath ≠ FileExistStatus.Directory then
      some (Except.error ())
    else
      (CopyFileInternal md5hex env fs source target moveMode fullHashMode).map
        (fun r => Except.ok r.2)

/-- Byte-wise lexicographic order on character data, modelling Go's string
comparison (on UTF-8 data byte order and code-point order coincide). -/
def listLeB : List Char → List Char → Bool
  | [], _ => true
  | _ :: _, [] => false
  | a :: as, b :: bs =>
    if a.toNat < b.toNat then true
    else if b.toNat < a.toNat then false
    else listLeB as bs

/-- Ascending string order used for directory-entry enumeration
(`filepath.Walk` reads names in sorted order). -/
def ascLe (a b : String) : Prop := listLeB a.data b.data = true

instance : DecidableRel ascLe := fun _ _ => instDecidableEqBool _ _

/-- Descending string order: `a` comes no later than `b` when sorting in
reverse lexicographic order, as `sort.Sort(sort.Reverse(sort.StringSlice(...)))`
does. -/
def revLe (a b : String) : Prop := listLeB b.data a.data = true

instance : DecidableRel revLe := fun _ _ => instDecidableEqBool _ _

/-- Reverse lexicographic sort of the recorded directory list, from
`sort.Sort(sort.Reverse(sort.StringSlice(dirList)))` in `CopyDirectory`. -/
def sortRevLex (l : List String) : List String :=
  l.insertionSort revLe

/-- Whether `p` is an immediate child path of directory `d`:
`p = d ++ "/" ++ name` with a non-empty, slash-free name. -/
def isChildName (d p : String) : Bool :=
  decide (p.data.take (d.data.length + 1) = d.data ++ ['/'])
    && decide (d.data.length + 1 < p.data.length)
    && !((p.data.drop (d.data.length + 1)).contains '/')

/-- Immediate children of a directory in the flat file map, in ascending
name order, modelling one `readDirNames` call of `filepath.Walk`. -/
def childPaths (fs : FS) (d : String) : List String :=
  (((fs.map Prod.fst).filter (fun p => isChildName d p)).dedup).insertionSort ascLe

/-- Remove a directory, from `os.Remove` during the move-mode cleanup pass:
succeeds only when the directory has no remaining children; the failure on
a non-empty directory is ignored by the code, leaving it in place. -/
def removeDirIfEmpty (fs : FS) (d : String) : FS :=
  if (childPaths fs d).isEmpty then removeFS fs d else fs

mutual

/-- One visit of `filepath.Walk`'s function on path `p` (not the root),
sequentialising the worker pool of `CopyDirectory`: a directory is skipped
entirely without recursive mode, otherwise its mirrored target directory is
created if absent and the subtree is skipped with a diagnostic when that
fails, else the directory is recorded and its children walked; a regular
file goes through `CopyFile` toward its mirrored path, worker errors being
logged and skipped. `none` models a panic (nil `FileInfo` after a lost
entry, or inside `CopyFileInternal`). -/
def walkPath (md5hex : List Nat → String) (env : EnvFlags)
    (source target : String) (moveMode fullHashMode recursiveMode : Bool) :
    Nat → FS → List String → String → Option (FS × List String)
  | 0, fs, dirList, _ => some (fs, dirList)
  | fuel + 1, fs, dirList, p =>
    match statFS fs p with
    | none => none
    | some (FSNode.file _ _) =>
      match CopyFile md5hex env fs p (pathJoin target (relFrom source p))
          moveMode fullHashMode with
      | none => none
      | some (Except.error _) => some (fs, dirList)
      | some (Except.ok fs1) => some (fs1, dirList)
    | some FSNode.dir =>
      if recursiveMode = false then some (fs, dirList)
      else
        let targetDirectory := pathJoin target (relFrom source p)
        let fs1 := if IsFileExist fs targetDirectory = FileExistStatus.NotExist then
            setFS fs targetDirectory FSNode.dir
          else fs
        if IsFileExist fs1 targetDirectory ≠ FileExistStatus.Directory then
          some (fs1, dirList)
        else
          walkChildren md5hex env source target moveMode fullHashMode recursiveMode
            fuel fs1 (dirList ++ [p]) (childPaths fs1 p)

/-- Walk a list of sibling paths left to right, threading the filesystem and
the recorded directory list. -/
def walkChildren (md5hex : List Nat → String) (env : EnvFlags)
    (source target : String) (moveMode fullHashMode recursiveMode : Bool) :
    Nat → FS → List String → List String → Option (FS × List String)
  | 0, fs, dirList, _ => some (fs, dirList)
  | _ + 1, fs, dirList, [] => some (fs, dirList)
  | fuel + 1, fs, dirList, c :: cs =>
    match walkPath md5hex env source target moveMode fullHashMode recursiveMode
        fuel fs dirList c with
    | none => none
    | some (fs1, dirList1) =>
      walkChildren md5hex env source target moveMode fullHashMode recursiveMode
        fuel fs1 dirList1 cs

end

/-- The body of `CopyDirectory` after its preconditions: walk the source
tree (the root itself is neither copied nor recorded), then, in move mode,
sort the recorded directories in reverse lexicographic order and remove
each now-empty one. A missing source root gives the walk function a nil
`FileInfo` and a file root makes the worker slice `p[len(source)+1:]` out
of range; both Go panics are modelled as `none`. The fuel is ample for the
finite model and unexamined by the precondition claims. -/
def treeWork (md5hex : List Nat → String) (env : EnvFlags) (fs : FS)
    (source target : String) (moveMode fullHashMode recursiveMode : Bool) : Option FS :=
  match statFS fs source with
  | none => none
  | some (FSNode.file _ _) => none
  | some FSNode.dir =>
    match walkChildren md5hex env source target moveMode fullHashMode recursiveMode
        ((fs.length + 2) * (fs.length + 2)) fs [] (childPaths fs source) with
    | none => none
    | some (fs1, dirList) =>
      some (if moveMode then (sortRevLex dirList).foldl removeDirIfEmpty fs1 else fs1)

/-- The two precondition errors of `CopyDirectory`, in check order. -/
inductive TreeCopyError where
  | identical
  | invalidTarget
deriving DecidableEq

/-- Tree copier, from `CopyDirectory`: reject literally identical source and
target strings, then reject a target that is not an existing directory —
both before any filesystem work (the returned filesystem is the input) —
and otherwise run the walk. The worker count (`jobNum`) only tunes
concurrency and is absorbed by the sequentialisation. -/
def CopyDirectory (md5hex : List Nat → String) (env : EnvFlags) (fs : FS)
    (source target : String) (moveMode fullHashMode recursiveMode : Bool) :
    Option TreeCopyError × Option FS :=
  if source = target then (some TreeCopyError.identical, some fs)
  else if IsFileExist fs target ≠ FileExistStatus.Directory then
    (some TreeCopyError.invalidTarget, some fs)
  else
    (none, treeWork md5hex env fs source target moveMode fullHashMode recursiveMode)

/-- Exit condition of the collision-resolution loop at a candidate: the
candidate path is free, or it holds content identical to the source. -/
def stopsProbe (md5hex : List Nat → String) (fs : FS) (source : String)
    (fullHashMode : Bool) (cand : String) : Prop :=
  IsFileExist fs cand = FileExistStatus.NotExist ∨
    hasSameContent md5hex fs source cand fullHashMode = some true

instance (md5hex : List Nat → String) (fs : FS) (source : String)
    (fullHashMode : Bool) (cand : String) :
    Decidable (stopsProbe md5hex fs source fullHashMode cand) :=
  instDecidableOr

/-- A digest stand-in used by concrete witnesses (theorems quantify over the
digest function, so any concrete one may instantiate them). -/
def mdW : List Nat → String := fun _ => "h"

/-- Environment without injected failures, for witnesses. -/
def envW : EnvFlags := ⟨false, false, false⟩

/-- Environment where the mid-stream byte copy fails. -/
def envCopyFailW : EnvFlags := ⟨true, false, false⟩

/-- Environment where the rename primitive fails (cross-device move). -/
def envRenameFailW : EnvFlags := ⟨false, false, true⟩

/-- Witness filesystem: a readable source and an unrelated bystander file. -/
def fsW : FS := [("src.txt", FSNode.file [1] true), ("other.txt", FSNode.file [5] true)]

/-- Witness filesystem for the rename sequence: the desired target name is
occupied by content of a different size. -/
def fsC2 : FS := [("s.jpg", FSNode.file [1] true), ("photo.jpg", FSNode.file [2, 3] true)]

/-- Witness filesystem for comparator failure modes: one readable file and
one unreadable file of the same size. -/
def fsC3 : FS := [("u.txt", FSNode.file [1] false), ("a.txt", FSNode.file [9] true)]

/-- Witness filesystem for the duplicate-skip outcome: source and target
hold content of the same size (the witness digest function collapses them). -/
def fsC6 : FS := [("s.txt", FSNode.file [7] true), ("t.txt", FSNode.file [7] true)]

/-- Witness filesystem for the tree-copy claims: a source directory with a
file, the target directory, and the same directory under a slash-suffixed
alias name as the OS would resolve it. -/
def fsC10 : FS := [("dir", FSNode.dir), ("dir/", FSNode.dir), ("dir/a.txt", FSNode.file [3] true)]

/-- Content larger than the 500 KiB sampling threshold, for the C5 witness
(only its length is ever inspected by the proofs). -/
def bigContent : List Nat := List.replicate 512001 0

/-- Witness filesystem with two above-threshold files. -/
def fsBig : FS := [("big1", FSNode.file bigContent true), ("big2", FSNode.file bigContent true)]

theorem statFS_removeFS (fs : FS) (q p : String) :
    statFS (removeFS fs q) p = if p = q then none else statFS fs p := by
  induction fs with
  | nil => simp [removeFS, statFS]
  | cons e rest ih =>
    obtain ⟨a, b⟩ := e
    by_cases haq : a = q
    · subst haq
      by_cases hpq : p = a
      · subst hpq
        simp [removeFS, statFS, ih]
      · simp [removeFS, statFS, hpq, ih]
    · by_cases hpa : p = a
      · subst hpa
        simp [removeFS, statFS, haq, Ne.symm haq]
      · simp [removeFS, statFS, haq, hpa, ih]

theorem statFS_setFS (fs : FS) (q : String) (n : FSNode) (p : String) :
    statFS (setFS fs q n) p = if p = q then some n else statFS fs p := by
  by_cases hpq : p = q <;> simp [setFS, statFS, hpq, statFS_removeFS]

theorem IsFileExist_notExist_iff (fs : FS) (p : String) :
    IsFileExist fs p = FileExistStatus.NotExist ↔ statFS fs p = none := by
  unfold IsFileExist
  cases h : statFS fs p with
  | none => simp
  | some n => cases n <;> simp

theorem statFS_isSome_iff_mem (fs : FS) (p : String) :
    (statFS fs p).isSome ↔ p ∈ fs.map Prod.fst := by
  induction fs with
  | nil => simp [statFS]
  | cons e rest ih =>
    obtain ⟨a, b⟩ := e
    by_cases hpa : p = a <;> simp [statFS, hpa, ih]

theorem transferFS_preserves (env : EnvFlags) (fs : FS) (source target : String)
    (moveMode : Bool) (p : String) (hps : p ≠ source) (hpt : p ≠ target) :
    statFS (transferFS env fs source target moveMode) p = statFS fs p := by
  unfold transferFS renameFS doCopy
  cases moveMode <;>
    simp only [Bool.false_eq_true, if_false, if_true, reduceIte] <;>
    (repeat' split) <;>
    simp [statFS_setFS, statFS_removeFS, hps, hpt]

/-- Numeric value of a decimal digit character. -/
def digitVal (c : Char) : Nat := c.toNat - 48

/-- Value of a least-significant-first decimal digit list. -/
def valRev : List Char → Nat
  | [] => 0
  | c :: cs => digitVal c + 10 * valRev cs

theorem digitVal_ofNat (d : Nat) (h : d < 10) : digitVal (Char.ofNat (48 + d)) = d := by
  interval_cases d <;> decide

theorem valRev_digitsRevAux (fuel n : Nat) (h : n < fuel) :
    valRev (digitsRevAux fuel n) = n := by
  induction fuel generalizing n with
  | zero => omega
  | succ fuel ih =>
    rw [digitsRevAux]
    by_cases h10 : n < 10
    · simp only [if_pos h10, valRev]
      rw [digitVal_ofNat _ h10]
      omega
    · simp only [if_neg h10, valRev]
      rw [digitVal_ofNat _ (Nat.mod_lt _ (by omega))]
      rw [ih (n / 10) (by omega)]
      omega

theorem itoa_injective : Function.Injective itoa := by
  intro m n h
  have hd : digitsRevAux (m + 1) m = digitsRevAux (n + 1) n := by
    have := congrArg String.data h
    simpa [itoa] using List.reverse_injective this
  have := congrArg valRev hd
  rwa [valRev_digitsRevAux _ _ (by omega), valRev_digitsRevAux _ _ (by omega)] at this

theorem extScan_length_le (r seen : List Char) :
    (extScan r seen).length ≤ r.length + seen.length := by
  induction r generalizing seen with
  | nil => simp [extScan]
  | cons c cs ih =>
    rw [extScan]
    by_cases hsl : c = '/'
    · simp [hsl]
    · by_cases hdot : c = '.'
      · simp [hsl, hdot]
        omega
      · simp only [if_neg hsl, if_neg hdot]
        have := ih (c :: seen)
        simp at this ⊢
        omega

theorem filepathExt_length_le (t : String) :
    (filepathExt t).data.length ≤ t.data.length := by
  have := extScan_length_le t.data.reverse []
  simpa [filepathExt] using this

theorem renameFile_data (t : String) (k : Nat) :
    (renameFile t k).data =
      t.data.take (t.data.length - (filepathExt t).data.length)
        ++ '(' :: ((itoa k).data ++ ')' :: (filepathExt t).data) := by
  simp [renameFile, String.data_append]

theorem renameFile_length (t : String) (k : Nat) :
    (renameFile t k).data.length = t.data.length + (itoa k).data.length + 2 := by
  have hle := filepathExt_length_le t
  rw [renameFile_data]
  rw [List.length_append, List.length_take, List.length_cons, List.length_append,
    List.length_cons]
  omega

theorem renameFile_ne (t : String) (k : Nat) : renameFile t k ≠ t := by
  intro h
  have h1 := renameFile_length t k
  rw [congrArg String.data h] at h1
  omega

theorem renameFile_inj (t : String) (j k : Nat) (h : renameFile t j = renameFile t k) :
    j = k := by
  have hd := congrArg String.data h
  rw [renameFile_data, renameFile_data] at hd
  have h1 := List.append_cancel_left hd
  have h2 : (itoa j).data ++ ')' :: (filepathExt t).data
      = (itoa k).data ++ ')' :: (filepathExt t).data := by
    exact List.cons_injective h1
  have h3 : (itoa j).data = (itoa k).data := List.append_cancel_right h2
  exact itoa_injective (String.ext h3)

theorem exists_free_candidate (fs : FS) (target : String) :
    ∃ j, 1 ≤ j ∧ j ≤ fs.length + 1 ∧ statFS fs (renameFile target j) = none := by
  by_contra hcon
  push_neg at hcon
  have hmem : ∀ j ∈ Finset.Icc 1 (fs.length + 1),
      renameFile target j ∈ fs.map Prod.fst := by
    intro j hj
    rw [Finset.mem_Icc] at hj
    have hne := hcon j hj.1 hj.2
    have : (statFS fs (renameFile target j)).isSome := by
      cases hst : statFS fs (renameFile target j) with
      | none => exact absurd hst hne
      | some n => rfl
    exact (statFS_isSome_iff_mem fs _).mp this
  have hsub : (Finset.Icc 1 (fs.length + 1)).image (renameFile target)
      ⊆ (fs.map Prod.fst).toFinset := by
    intro x hx
    rw [Finset.mem_image] at hx
    obtain ⟨j, hj, rfl⟩ := hx
    rw [List.mem_toFinset]
    exact hmem j hj
  have hcard1 : ((Finset.Icc 1 (fs.length + 1)).image (renameFile target)).card
      = fs.length + 1 := by
    rw [Finset.card_image_of_injOn (fun a _ b _ hab => renameFile_inj target a b hab)]
    simp
  have hcard2 := Finset.card_le_card hsub
  have hcard3 := List.toFinset_card_le (fs.map Prod.fst)
  rw [hcard1] at hcard2
  simp at hcard3
  omega

theorem hasSameContent_ne_none (md5hex : List Nat → String) (fs : FS)
    (source cand : String) (fh : Bool) (hs : (statFS fs source).isSome)
    (hc : (statFS fs cand).isSome) :
    hasSameContent md5hex fs source cand fh ≠ none := by
  obtain ⟨ns, hns⟩ := Option.isSome_iff_exists.mp hs
  obtain ⟨nc, hnc⟩ := Option.isSome_iff_exists.mp hc
  unfold hasSameContent
  rw [hns, hnc]
  dsimp only
  split <;> simp

theorem resolveLoop_ne_panicked (md5hex : List Nat → String) (fs : FS)
    (source target : String) (fh : Bool) (hsrc : (statFS fs source).isSome) :
    ∀ (fuel idx : Nat) (cand : String),
      resolveLoop md5hex fs source target fh fuel cand idx ≠ ResolveResult.panicked := by
  intro fuel
  induction fuel with
  | zero => intro idx cand; rw [resolveLoop]; simp
  | succ fuel ih =>
    intro idx cand
    rw [resolveLoop]
    by_cases hc : IsFileExist fs cand = FileExistStatus.NotExist
    · simp [hc]
    · rw [if_neg hc]
      have hcand : (statFS fs cand).isSome := by
        rw [Option.isSome_iff_ne_none]
        intro hnone
        exact hc ((IsFileExist_notExist_iff fs cand).mpr hnone)
      cases hsc : hasSameContent md5hex fs source cand fh with
      | none => exact absurd hsc (hasSameContent_ne_none md5hex fs source cand fh hsrc hcand)
      | some b =>
        cases b with
        | true => simp
        | false => exact ih (idx + 1) (renameFile target idx)

theorem resolveLoop_found_of_stop (md5hex : List Nat → String) (fs : FS)
    (source target : String) (fh : Bool) (fuel idx : Nat) (cand : String)
    (h : stopsProbe md5hex fs source fh cand) :
    resolveLoop md5hex fs source target fh (fuel + 1) cand idx = ResolveResult.found cand := by
  rw [resolveLoop]
  rcases h with hfree | hdup
  · rw [if_pos hfree]
  · by_cases hfree : IsFileExist fs cand = FileExistStatus.NotExist
    · rw [if_pos hfree]
    · rw [if_neg hfree, hdup]

theorem resolveLoop_ne_fuelOut (md5hex : List Nat → String) (fs : FS)
    (source target : String) (fh : Bool) :
    ∀ (fuel idx j : Nat) (cand : String),
      statFS fs (renameFile target j) = none → idx ≤ j → j + 2 ≤ idx + fuel →
      resolveLoop md5hex fs source target fh fuel cand idx ≠ ResolveResult.fuelOut := by
  intro fuel
  induction fuel with
  | zero => intro idx j cand _ hij hf; omega
  | succ fuel ih =>
    intro idx j cand hfree hij hf
    rw [resolveLoop]
    by_cases hc : IsFileExist fs cand = FileExistStatus.NotExist
    · simp [hc]
    · rw [if_neg hc]
      cases hsc : hasSameContent md5hex fs source cand fh with
      | none => simp
      | some b =>
        cases b with
        | true => simp
        | false =>
          by_cases hj : idx = j
          · subst hj
            have hstop : stopsProbe md5hex fs source fh (renameFile target idx) :=
              Or.inl ((IsFileExist_notExist_iff fs _).mpr hfree)
            obtain ⟨fuel', rfl⟩ : ∃ f, fuel = f + 1 := ⟨fuel - 1, by omega⟩
            rw [resolveLoop_found_of_stop md5hex fs source target fh fuel' (idx + 1) _ hstop]
            simp
          · exact ih (idx + 1) j (renameFile target idx) hfree (by omega) (by omega)

theorem resolveLoop_found_shape (md5hex : List Nat → String) (fs : FS)
    (source target : String) (fh : Bool) :
    ∀ (fuel idx : Nat) (cand c : String),
      resolveLoop md5hex fs source target fh fuel cand idx = ResolveResult.found c →
      c = cand ∨ ∃ k, idx ≤ k ∧ c = renameFile target k := by
  intro fuel
  induction fuel with
  | zero => intro idx cand c h; rw [resolveLoop] at h; cases h
  | succ fuel ih =>
    intro idx cand c h
    rw [resolveLoop] at h
    by_cases hc : IsFileExist fs cand = FileExistStatus.NotExist
    · rw [if_pos hc] at h
      cases h
      exact Or.inl rfl
    · rw [if_neg hc] at h
      cases hsc : hasSameContent md5hex fs source cand fh with
      | none => rw [hsc] at h; cases h
      | some b =>
        rw [hsc] at h
        cases b with
        | true =>
          cases h
          exact Or.inl rfl
        | false =>
          rcases ih (idx + 1) (renameFile target idx) c h with heq | ⟨k, hk, heq⟩
          · exact Or.inr ⟨idx, Nat.le_refl idx, heq⟩
          · exact Or.inr ⟨k, by omega, heq⟩

theorem resolveLoop_found_min (md5hex : List Nat → String) (fs : FS)
    (source target : String) (fh : Bool) (hsrc : (statFS fs source).isSome) :
    ∀ (fuel idx k : Nat) (cand : String),
      idx ≤ k → k + 2 ≤ idx + fuel →
      stopsProbe md5hex fs source fh (renameFile target k) →
      (∀ j, idx ≤ j → j < k → ¬ stopsProbe md5hex fs source fh (renameFile target j)) →
      ¬ stopsProbe md5hex fs source fh cand →
      resolveLoop md5hex fs source target fh fuel cand idx
        = ResolveResult.found (renameFile target k) := by
  intro fuel
  induction fuel with
  | zero => intro idx k cand hik hf; omega
  | succ fuel ih =>
    intro idx k cand hik hf hstop hmin hcand
    rw [resolveLoop]
    have hcfree : IsFileExist fs cand ≠ FileExistStatus.NotExist := by
      intro hfree
      exact hcand (Or.inl hfree)
    rw [if_neg hcfree]
    have hcsome : (statFS fs cand).isSome := by
      rw [Option.isSome_iff_ne_none]
      intro hnone
      exact hcfree ((IsFileExist_notExist_iff fs cand).mpr hnone)
    cases hsc : hasSameContent md5hex fs source cand fh with
    | none => exact absurd hsc (hasSameContent_ne_none md5hex fs source cand fh hsrc hcsome)
    | some b =>
      cases b with
      | true => exact absurd (Or.inr hsc) hcand
      | false =>
        by_cases hj : idx = k
        · subst hj
          obtain ⟨fuel', rfl⟩ : ∃ f, fuel = f + 1 := ⟨fuel - 1, by omega⟩
          exact resolveLoop_found_of_stop md5hex fs source target fh fuel' (idx + 1) _ hstop
        · exact ih (idx + 1) k (renameFile target idx) (by omega) (by omega) hstop
            (fun j h1 h2 => hmin j (by omega) h2)
            (hmin idx (Nat.le_refl idx) (by omega))

theorem CopyFileInternal_total (md5hex : List Nat → String) (env : EnvFlags) (fs : FS)
    (source target : String) (moveMode fullHashMode : Bool)
    (hsrc : (statFS fs source).isSome) :
    ∃ out fs', CopyFileInternal md5hex env fs source target moveMode fullHashMode
      = some (out, fs') := by
  unfold CopyFileInternal
  by_cases ht : IsFileExist fs target = FileExistStatus.NotExist
  · rw [if_pos ht]
    exact ⟨_, _, rfl⟩
  · rw [if_neg ht]
    obtain ⟨j, hj1, hj2, hjfree⟩ := exists_free_candidate fs target
    cases hres : resolveLoop md5hex fs source target fullHashMode (fs.length + 2) target 1 with
    | panicked =>
      exact absurd hres
        (resolveLoop_ne_panicked md5hex fs source target fullHashMode hsrc _ _ _)
    | fuelOut =>
      exact absurd hres
        (resolveLoop_ne_fuelOut md5hex fs source target fullHashMode
          (fs.length + 2) 1 j target hjfree hj1 (by omega))
    | found c =>
      dsimp only
      by_cases hc : IsFileExist fs c = FileExistStatus.NotExist
      · rw [if_pos hc]
        exact ⟨_, _, rfl⟩
      · rw [if_neg hc]
        exact ⟨_, _, rfl⟩

theorem listLeB_total (a b : List Char) : listLeB a b = true ∨ listLeB b a = true := by
  induction a generalizing b with
  | nil => left; rfl
  | cons x xs ih =>
    cases b with
    | nil => right; rfl
    | cons y ys =>
      by_cases h1 : x.toNat < y.toNat
      · left; simp [listLeB, h1]
      · by_cases h2 : y.toNat < x.toNat
        · right; simp [listLeB, h2]
        · rcases ih ys with h | h
          · left; simpa [listLeB, h1, h2] using h
          · right; simpa [listLeB, h1, h2] using h

theorem listLeB_trans (a b c : List Char) (h1 : listLeB a b = true)
    (h2 : listLeB b c = true) : listLeB a c = true := by
  induction a generalizing b c with
  | nil => rfl
  | cons x xs ih =>
    cases b with
    | nil => simp [listLeB] at h1
    | cons y ys =>
      cases c with
      | nil => simp [listLeB] at h2
      | cons z zs =>
        simp only [listLeB] at h1 h2 ⊢
        split_ifs at h1 h2 ⊢ <;>
          first
            | rfl
            | omega
            | exact ih ys zs h1 h2

theorem listLeB_append_false (a rest : List Char) (h : rest ≠ []) :
    listLeB (a ++ rest) a = false := by
  induction a with
  | nil =>
    cases rest with
    | nil => exact absurd rfl h
    | cons c cs => rfl
  | cons x xs ih => simpa [listLeB] using ih

theorem sortRevLex_sorted (l : List String) : (sortRevLex l).Pairwise revLe := by
  have tot : ∀ a b : String, revLe a b ∨ revLe b a := fun a b =>
    (listLeB_total b.data a.data).imp (fun h => h) (fun h => h)
  have tr : ∀ a b c : String, revLe a b → revLe b c → revLe a c := fun a b c h1 h2 =>
    listLeB_trans c.data b.data a.data h2 h1
  letI : IsTotal String revLe := ⟨tot⟩
  letI : IsTrans String revLe := ⟨fun a b c => tr a b c⟩
  exact List.sorted_insertionSort revLe l

/-- C1: never-overwrite invariant. Whenever the single-file copy path
`CopyFileInternal` returns, (a) every transfer it performed went to a
candidate path that had just been probed as `NotExist`, and (b) the content
of every file that already existed at any path other than the source is
unchanged in the resulting filesystem — no probed candidate (nor any other
existing file) is ever overwritten by the transfer. -/
theorem C1_never_overwrite (md5hex : List Nat → String) (env : EnvFlags) (fs : FS)
    (source target : String) (moveMode fullHashMode : Bool) (out : Outcome) (fs' : FS)
    (h : CopyFileInternal md5hex env fs source target moveMode fullHashMode
      = some (out, fs')) :
    (∀ p, out = Outcome.transferred p → IsFileExist fs p = FileExistStatus.NotExist) ∧
    (∀ p c rd, p ≠ source → statFS fs p = some (FSNode.file c rd) →
      statFS fs' p = some (FSNode.file c rd)) := by
  unfold CopyFileInternal at h
  by_cases ht : IsFileExist fs target = FileExistStatus.NotExist
  · rw [if_pos ht] at h
    injection h with h2
    injection h2 with hout hfs
    subst hout
    subst hfs
    refine ⟨?_, ?_⟩
    · intro p hp
      injection hp with hp2
      subst hp2
      exact ht
    · intro p c rd hps hpf
      have hpt : p ≠ target := by
        intro he
        subst he
        rw [(IsFileExist_notExist_iff fs p).mp ht] at hpf
        cases hpf
      rw [transferFS_preserves env fs source target moveMode p hps hpt]
      exact hpf
  · rw [if_neg ht] at h
    cases hres : resolveLoop md5hex fs source target fullHashMode (fs.length + 2) target 1 with
    | panicked => rw [hres] at h; exact Option.noConfusion h
    | fuelOut => rw [hres] at h; exact Option.noConfusion h
    | found nt =>
      rw [hres] at h
      dsimp only at h
      by_cases hc : IsFileExist fs nt = FileExistStatus.NotExist
      · rw [if_pos hc] at h
        injection h with h2
        injection h2 with hout hfs
        subst hout
        subst hfs
        refine ⟨?_, ?_⟩
        · intro p hp
          injection hp with hp2
          subst hp2
          exact hc
        · intro p c rd hps hpf
          have hpt : p ≠ nt := by
            intro he
            subst he
            rw [(IsFileExist_notExist_iff fs p).mp hc] at hpf
            cases hpf
          rw [transferFS_preserves env fs source nt moveMode p hps hpt]
          exact hpf
      · rw [if_neg hc] at h
        injection h with h2
        injection h2 with hout hfs
        subst hout
        subst hfs
        refine ⟨?_, ?_⟩
        · intro p hp
          exact Outcome.noConfusion hp
        · intro p c rd hps hpf
          cases moveMode with
          | false => exact hpf
          | true =>
            simp only [if_true]
            rw [statFS_removeFS]
            rw [if_neg hps]
            exact hpf

/-- Witness for C1: a concrete copy into a free target leaves the bystander
file intact, and the transfer target had been probed as absent. -/
theorem C1_never_overwrite_witness :
    IsFileExist fsW "t.txt" = FileExistStatus.NotExist ∧
    statFS (transferFS envW fsW "src.txt" "t.txt" false) "other.txt"
      = some (FSNode.file [5] true) := by
  have h := C1_never_overwrite mdW envW fsW "src.txt" "t.txt" false false
    (Outcome.transferred "t.txt") (transferFS envW fsW "src.txt" "t.txt" false) rfl
  exact ⟨h.1 "t.txt" rfl, h.2 "other.txt" [5] true (by decide) (by decide)⟩

/-- C6: terminal outcome trichotomy. For every invocation of the
single-file copy path on an existing source, the call returns and exactly
one of the three terminal outcomes holds: transferred to the original
target path, transferred to a renamed candidate path, or skipped as a
duplicate; a transfer and a skip never both occur, and in the duplicate
outcome no transfer is performed — the filesystem is unchanged except that
the source is deleted exactly when move mode is set. -/
theorem C6_outcome_trichotomy (md5hex : List Nat → String) (env : EnvFlags) (fs : FS)
    (source target : String) (moveMode fullHashMode : Bool)
    (hsrc : (statFS fs source).isSome) :
    ∃ out fs',
      CopyFileInternal md5hex env fs source target moveMode fullHashMode
        = some (out, fs') ∧
      ((out = Outcome.transferred target ∧
          (∀ k, 1 ≤ k → out ≠ Outcome.transferred (renameFile target k)) ∧
          (∀ d, out ≠ Outcome.skipped d)) ∨
       ((∃ k, 1 ≤ k ∧ out = Outcome.transferred (renameFile target k)) ∧
          out ≠ Outcome.transferred target ∧
          (∀ d, out ≠ Outcome.skipped d)) ∨
       ((∃ d, out = Outcome.skipped d) ∧
          (∀ p, out ≠ Outcome.transferred p) ∧
          fs' = (if moveMode then removeFS fs source else fs))) := by
  unfold CopyFileInternal
  by_cases ht : IsFileExist fs target = FileExistStatus.NotExist
  · rw [if_pos ht]
    refine ⟨_, _, rfl, Or.inl ⟨rfl, ?_, ?_⟩⟩
    · intro k hk he
      injection he with he2
      exact renameFile_ne target k he2.symm
    · intro d he
      exact Outcome.noConfusion he
  · rw [if_neg ht]
    obtain ⟨j, hj1, hj2, hjfree⟩ := exists_free_candidate fs target
    cases hres : resolveLoop md5hex fs source target fullHashMode (fs.length + 2) target 1 with
    | panicked =>
      exact absurd hres
        (resolveLoop_ne_panicked md5hex fs source target fullHashMode hsrc _ _ _)
    | fuelOut =>
      exact absurd hres
        (resolveLoop_ne_fuelOut md5hex fs source target fullHashMode
          (fs.length + 2) 1 j target hjfree hj1 (by omega))
    | found nt =>
      dsimp only
      by_cases hc : IsFileExist fs nt = FileExistStatus.NotExist
      · rw [if_pos hc]
        have hshape := resolveLoop_found_shape md5hex fs source target fullHashMode
          (fs.length + 2) 1 target nt hres
        rcases hshape with hnt | ⟨k, hk1, hnt⟩
        · exact absurd (hnt ▸ hc) ht
        · subst hnt
          refine ⟨_, _, rfl, Or.inr (Or.inl ⟨⟨k, hk1, rfl⟩, ?_, ?_⟩)⟩
          · intro he
            injection he with he2
            exact renameFile_ne target k he2
          · intro d he
            exact Outcome.noConfusion he
      · rw [if_neg hc]
        refine ⟨_, _, rfl, Or.inr (Or.inr ⟨⟨nt, rfl⟩, ?_, rfl⟩)⟩
        intro p he
        exact Outcome.noConfusion he

/-- Witness for C6: at a concrete move where the target already holds
identical content (under the witness digest), the skipped-as-duplicate
outcome occurs. -/
theorem C6_outcome_trichotomy_witness :
    ∃ out fs',
      CopyFileInternal mdW envW fsC6 "s.txt" "t.txt" true false = some (out, fs') ∧
      ((out = Outcome.transferred "t.txt" ∧
          (∀ k, 1 ≤ k → out ≠ Outcome.transferred (renameFile "t.txt" k)) ∧
          (∀ d, out ≠ Outcome.skipped d)) ∨
       ((∃ k, 1 ≤ k ∧ out = Outcome.transferred (renameFile "t.txt" k)) ∧
          out ≠ Outcome.transferred "t.txt" ∧
          (∀ d, out ≠ Outcome.skipped d)) ∨
       ((∃ d, out = Outcome.skipped d) ∧
          (∀ p, out ≠ Outcome.transferred p) ∧
          fs' = (if true then removeFS fsC6 "s.txt" else fsC6))) :=
  C6_outcome_trichotomy mdW envW fsC6 "s.txt" "t.txt" true false (by decide)

theorem stops_bound (md5hex : List Nat → String) (fs : FS) (source target : String)
    (fh : Bool) (k : Nat) (hk1 : 1 ≤ k)
    (h0 : ¬ stopsProbe md5hex fs source fh target)
    (hmin : ∀ j, 1 ≤ j → j < k → ¬ stopsProbe md5hex fs source fh (renameFile target j)) :
    k ≤ fs.length + 1 := by
  have hpresent : ∀ cand, ¬ stopsProbe md5hex fs source fh cand →
      cand ∈ fs.map Prod.fst := by
    intro cand hcand
    have hne : statFS fs cand ≠ none := by
      intro hnone
      exact hcand (Or.inl ((IsFileExist_notExist_iff fs cand).mpr hnone))
    rw [← statFS_isSome_iff_mem]
    rwa [Option.isSome_iff_ne_none]
  have hsub : insert target ((Finset.Icc 1 (k - 1)).image (renameFile target))
      ⊆ (fs.map Prod.fst).toFinset := by
    intro x hx
    rw [Finset.mem_insert] at hx
    rw [List.mem_toFinset]
    rcases hx with rfl | hx
    · exact hpresent x h0
    · rw [Finset.mem_image] at hx
      obtain ⟨j, hj, rfl⟩ := hx
      rw [Finset.mem_Icc] at hj
      exact hpresent _ (hmin j hj.1 (by omega))
  have hnotmem : target ∉ (Finset.Icc 1 (k - 1)).image (renameFile target) := by
    intro hmem
    rw [Finset.mem_image] at hmem
    obtain ⟨j, _, hj⟩ := hmem
    exact renameFile_ne target j hj
  have hcard1 : (insert target ((Finset.Icc 1 (k - 1)).image (renameFile target))).card
      = k := by
    rw [Finset.card_insert_of_not_mem hnotmem]
    rw [Finset.card_image_of_injOn (fun a _ b _ hab => renameFile_inj target a b hab)]
    simp
    omega
  have hcard2 := Finset.card_le_card hsub
  have hcard3 := List.toFinset_card_le (fs.map Prod.fst)
  rw [hcard1] at hcard2
  simp at hcard3
  omega

/-- C2: rename sequence determinism. When the desired target exists with
non-identical content, the resolver probes `renameFile target 1`,
`renameFile target 2`, ... in increasing order, each derived from the
original target name, and settles on `renameFile target k` for the least
stopping index `k` — the first candidate that is free or a content
duplicate; moreover the generated names insert the attempt number before
the file extension, as in `photo.jpg` to `photo(1).jpg`, `photo(2).jpg`. -/
theorem C2_rename_sequence (md5hex : List Nat → String) (env : EnvFlags) (fs : FS)
    (source target : String) (moveMode fullHashMode : Bool) (k : Nat)
    (hsrc : (statFS fs source).isSome)
    (h0 : ¬ stopsProbe md5hex fs source fullHashMode target)
    (hk1 : 1 ≤ k)
    (hkstop : stopsProbe md5hex fs source fullHashMode (renameFile target k))
    (hmin : ∀ j, 1 ≤ j → j < k →
      ¬ stopsProbe md5hex fs source fullHashMode (renameFile target j)) :
    (∃ fs', CopyFileInternal md5hex env fs source target moveMode fullHashMode
        = some (Outcome.transferred (renameFile target k), fs')
      ∨ CopyFileInternal md5hex env fs source target moveMode fullHashMode
        = some (Outcome.skipped (renameFile target k), fs')) ∧
    renameFile "photo.jpg" 1 = "photo(1).jpg" ∧
    renameFile "photo.jpg" 2 = "photo(2).jpg" ∧
    renameFile "photo.jpg" 12 = "photo(12).jpg" := by
  have hkb : k ≤ fs.length + 1 :=
    stops_bound md5hex fs source target fullHashMode k hk1 h0 hmin
  have ht : IsFileExist fs target ≠ FileExistStatus.NotExist := fun hfree =>
    h0 (Or.inl hfree)
  have hloop := resolveLoop_found_min md5hex fs source target fullHashMode hsrc
    (fs.length + 2) 1 k target hk1 (by omega) hkstop hmin h0
  refine ⟨?_, by decide, by decide, by decide⟩
  unfold CopyFileInternal
  rw [if_neg ht, hloop]
  dsimp only
  by_cases hc : IsFileExist fs (renameFile target k) = FileExistStatus.NotExist
  · rw [if_pos hc]
    exact ⟨_, Or.inl rfl⟩
  · rw [if_neg hc]
    exact ⟨_, Or.inr rfl⟩

/-- Witness for C2: with `photo.jpg` occupied by different-size content the
resolver settles on the first candidate `photo(1).jpg`. -/
theorem C2_rename_sequence_witness :
    (∃ fs', CopyFileInternal mdW envW fsC2 "s.jpg" "photo.jpg" false false
        = some (Outcome.transferred (renameFile "photo.jpg" 1), fs')
      ∨ CopyFileInternal mdW envW fsC2 "s.jpg" "photo.jpg" false false
        = some (Outcome.skipped (renameFile "photo.jpg" 1), fs')) ∧
    renameFile "photo.jpg" 1 = "photo(1).jpg" ∧
    renameFile "photo.jpg" 2 = "photo(2).jpg" ∧
    renameFile "photo.jpg" 12 = "photo(12).jpg" :=
  C2_rename_sequence mdW envW fsC2 "s.jpg" "photo.jpg" false false 1
    (by decide) (by decide) (by decide) (by decide)
    (by intro j h1 h2; omega)

/-- C3: comparator failure handling, settled against the code. The
fingerprint-failure half of the claim holds: an unreadable file yields an
empty digest and the comparator returns false. The stat-failure half does
not: the Go code ignores both `os.Stat` errors and dereferences the nil
`FileInfo`, so a failed stat panics (modelled `none`) instead of returning
false as the claim states. -/
theorem C3_comparator_failure (md5hex : List Nat → String) (fs : FS)
    (source target : String) (fh : Bool) :
    ((statFS fs source = none ∨ statFS fs target = none) →
      hasSameContent md5hex fs source target fh = none) ∧
    (∀ c nt, statFS fs source = some (FSNode.file c false) →
      statFS fs target = some nt →
      nodeSize (FSNode.file c false) = nodeSize nt →
      hasSameContent md5hex fs source target fh = some false) := by
  constructor
  · intro h
    cases hs : statFS fs source with
    | none =>
      cases ht2 : statFS fs target <;> simp [hasSameContent, hs, ht2]
    | some ns =>
      rcases h with h | h
      · rw [hs] at h
        cases h
      · simp [hasSameContent, hs, h]
  · intro c nt h1 h2 hsz
    simp only [hasSameContent, h1, h2]
    rw [if_neg (fun hne => hne hsz)]
    have hsrcP : getParticalHash md5hex fs source (nodeSize (FSNode.file c false)) = "" := by
      simp [getParticalHash, h1]
    have hsrcF : getFullHash md5hex fs source = "" := by
      simp [getFullHash, h1]
    simp [hsrcP, hsrcF]

/-- Witness for C3: with a concrete filesystem, a missing source makes the
comparator panic (`none`) and an unreadable same-size source yields
`some false`. -/
theorem C3_comparator_failure_witness :
    hasSameContent mdW fsC3 "missing" "a.txt" false = none ∧
    hasSameContent mdW fsC3 "u.txt" "a.txt" false = some false :=
  ⟨(C3_comparator_failure mdW fsC3 "missing" "a.txt" false).1 (Or.inl (by decide)),
   (C3_comparator_failure mdW fsC3 "u.txt" "a.txt" false).2 [1] (FSNode.file [9] true)
     (by decide) (by decide) (by decide)⟩

/-- C4: error reporting of the single-entry transfer, settled against the
code. `doCopy` itself does return an error when a step after target
creation fails (a mid-stream copy error or a failing close), but the
transfer operation the engine invokes, `doCopyOrMove`, discards that error
and reports success unconditionally — contradicting the claim that the
failure is surfaced to the caller. -/
theorem C4_transfer_error_swallowed (env : EnvFlags) (fs : FS)
    (source target : String) (c : List Nat)
    (hsrc : statFS fs source = some (FSNode.file c true))
    (htgt : statFS fs target ≠ some FSNode.dir) :
    ((env.copyFails = true → (doCopy env fs source target).err = true) ∧
      (env.copyFails = false → env.closeFails = true →
        (doCopy env fs source target).err = true)) ∧
    doCopyOrMove env fs source target false
      = Except.ok (doCopy env fs source target).fs := by
  refine ⟨?_, rfl⟩
  unfold doCopy
  rw [hsrc]
  dsimp only
  cases ht2 : statFS fs target with
  | none =>
    constructor
    · intro h1
      simp [h1]
    · intro h1 h2
      simp [h1, h2]
  | some x =>
    cases x with
    | dir => exact absurd ht2 htgt
    | file cc rr =>
      constructor
      · intro h1
        simp [h1]
      · intro h1 h2
        simp [h1, h2]

/-- Witness for C4: at a concrete transfer whose byte copy fails, `doCopy`
reports the error while `doCopyOrMove` still returns success. -/
theorem C4_transfer_error_swallowed_witness :
    (doCopy envCopyFailW fsW "src.txt" "t.txt").err = true ∧
    doCopyOrMove envCopyFailW fsW "src.txt" "t.txt" false
      = Except.ok (doCopy envCopyFailW fsW "src.txt" "t.txt").fs := by
  have h := C4_transfer_error_swallowed envCopyFailW fsW "src.txt" "t.txt" [1]
    (by decide) (by decide)
  exact ⟨h.1.1 rfl, h.2⟩

/-- C5: comparator strategy selection and sampling geometry. For same-size
existing files the comparator uses the sampled digests exactly when
`fullHashMode` is false and the size strictly exceeds 500 KiB, and the full
digests otherwise; the sampled digest feeds one accumulator, in order, the
four 50 KiB windows at offsets 0, (size − 50KiB)/3, 2(size − 50KiB)/3 and
size − 50KiB; and above the threshold those offsets are non-decreasing with
every window inside [0, size]. -/
theorem C5_sampling_strategy (md5hex : List Nat → String) (fs : FS)
    (source target : String) (fh : Bool) :
    (∀ ns nt, statFS fs source = some ns → statFS fs target = some nt →
      nodeSize ns = nodeSize nt →
      ((fh = false ∧ nodeSize ns > 500 * 1024 →
        hasSameContent md5hex fs source target fh
          = some ((getParticalHash md5hex fs source (nodeSize ns)
              == getParticalHash md5hex fs target (nodeSize nt))
            && (getParticalHash md5hex fs source (nodeSize ns)).length != 0
            && (getParticalHash md5hex fs target (nodeSize nt)).length != 0)) ∧
       (¬(fh = false ∧ nodeSize ns > 500 * 1024) →
        hasSameContent md5hex fs source target fh
          = some ((getFullHash md5hex fs source == getFullHash md5hex fs target)
            && (getFullHash md5hex fs source).length != 0
            && (getFullHash md5hex fs target).length != 0)))) ∧
    (∀ (c : List Nat) (s : Int), statFS fs source = some (FSNode.file c true) →
      500 * 1024 < s →
      getParticalHash md5hex fs source s
        = md5hex ((c.take blockSize.toNat)
            ++ ((c.drop ((s - blockSize).tdiv 3).toNat).take blockSize.toNat
            ++ ((c.drop ((2 * (s - blockSize)).tdiv 3).toNat).take blockSize.toNat
            ++ (c.drop (s - blockSize).toNat).take blockSize.toNat)))) ∧
    (∀ s : Int, 500 * 1024 < s →
      List.Chain' (· ≤ ·) (blockOffsets s) ∧
      ∀ o ∈ blockOffsets s, 0 ≤ o ∧ o + blockSize ≤ s) := by
  refine ⟨?_, ?_, ?_⟩
  · intro ns nt h1 h2 hsz
    constructor
    · rintro ⟨hfh, hgt⟩
      subst hfh
      have hcond : (!false && decide (nodeSize ns > 500 * 1024)) = true := by
        simp only [Bool.not_false, Bool.true_and, decide_eq_true_eq]
        omega
      simp only [hasSameContent, h1, h2]
      rw [if_neg (fun hne => hne hsz)]
      simp only [hcond, if_true]
    · intro hn
      have hcond : (!fh && decide (nodeSize ns > 500 * 1024)) = false := by
        cases fh with
        | true => rfl
        | false =>
          have hgt : ¬(nodeSize ns > 500 * 1024) := fun hg => hn ⟨rfl, hg⟩
          simp only [Bool.not_false, Bool.true_and, decide_eq_false_iff_not,
            decide_eq_true_eq]
          omega
      simp only [hasSameContent, h1, h2]
      rw [if_neg (fun hne => hne hsz)]
      simp only [hcond, Bool.false_eq_true, if_false]
  · intro c s h1 hs
    have ha : (0 : Int) ≤ (s - blockSize).tdiv 3 := by
      refine Int.tdiv_nonneg ?_ (by norm_num)
      simp only [blockSize]
      omega
    have hb : (0 : Int) ≤ (2 * (s - blockSize)).tdiv 3 := by
      refine Int.tdiv_nonneg ?_ (by norm_num)
      simp only [blockSize]
      omega
    have hc : (0 : Int) ≤ s - blockSize := by
      simp only [blockSize]
      omega
    have hrw : (readWindows c (blockOffsets s)).1
        = (c.take blockSize.toNat)
            ++ ((c.drop ((s - blockSize).tdiv 3).toNat).take blockSize.toNat
            ++ ((c.drop ((2 * (s - blockSize)).tdiv 3).toNat).take blockSize.toNat
            ++ (c.drop (s - blockSize).toNat).take blockSize.toNat)) := by
      simp [readWindows, blockOffsets, seekRead, ha, hb, hc]
    simp only [getParticalHash, h1]
    rw [hrw]
  · intro s hs
    obtain ⟨m, hm⟩ : ∃ m : Nat, s - blockSize = (m : Int) :=
      Int.eq_ofNat_of_zero_le (by simp only [blockSize]; omega)
    have h2m : (2 : Int) * ((m : Nat) : Int) = ((2 * m : Nat) : Int) := by push_cast; ring
    have e1 : ((m : Nat) : Int).tdiv 3 = ((m / 3 : Nat) : Int) := rfl
    have e2 : ((2 : Int) * ((m : Nat) : Int)).tdiv 3 = ((2 * m / 3 : Nat) : Int) := by
      rw [h2m]
      exact rfl
    have hbs : blockSize = (51200 : Int) := rfl
    constructor
    · simp only [blockOffsets, List.chain'_cons, List.chain'_singleton, and_true, hm, e1, e2]
      refine ⟨?_, ?_, ?_⟩ <;> omega
    · intro o ho
      simp only [blockOffsets, hm, e1, e2, List.mem_cons, List.mem_singleton,
        List.not_mem_nil, or_false] at ho
      rcases ho with rfl | rfl | rfl | rfl <;> constructor <;> omega

/-- Witness for C5: two above-threshold files in fast mode are compared
with the sampled digests, and at size 512001 the four offsets are ordered
and in range. -/
theorem C5_sampling_strategy_witness :
    hasSameContent mdW fsBig "big1" "big2" false
      = some ((getParticalHash mdW fsBig "big1" (nodeSize (FSNode.file bigContent true))
          == getParticalHash mdW fsBig "big2" (nodeSize (FSNode.file bigContent true)))
        && (getParticalHash mdW fsBig "big1" (nodeSize (FSNode.file bigContent true))).length != 0
        && (getParticalHash mdW fsBig "big2" (nodeSize (FSNode.file bigContent true))).length != 0) ∧
    (List.Chain' (· ≤ ·) (blockOffsets 512001) ∧
      ∀ o ∈ blockOffsets 512001, 0 ≤ o ∧ o + blockSize ≤ 512001) := by
  have h := C5_sampling_strategy mdW fsBig "big1" "big2" false
  have hlen : bigContent.length = 512001 := List.length_replicate 512001 0
  have hsize : nodeSize (FSNode.file bigContent true) > 500 * 1024 := by
    show (bigContent.length : Int) > 500 * 1024
    rw [hlen]
    norm_num
  exact ⟨(h.1 _ _ rfl rfl rfl).1 ⟨rfl, hsize⟩, h.2.2 512001 (by norm_num)⟩

/-- Counterexample to C7: at a concrete move-mode transfer whose rename
primitive fails (cross-device), the claimed copy-then-delete fallback does
not happen — the call reports success, yet the target was never created and
the source is still in place, so no fallback transfer occurred. -/
theorem C7_counterexample :
    doCopyOrMove envRenameFailW fsW "src.txt" "t.txt" true = Except.ok fsW ∧
    statFS fsW "t.txt" = none ∧
    statFS fsW "src.txt" = some (FSNode.file [1] true) :=
  ⟨rfl, by decide, by decide⟩

/-- C7 amended: in move mode the engine only invokes the rename primitive;
when that fails the failure is silently ignored — no copy-then-delete
fallback runs, no error is surfaced, and the filesystem is unchanged, so
the source file (and its content) is left in place rather than lost. -/
theorem C7_move_no_fallback (env : EnvFlags) (fs : FS) (source target : String)
    (h : env.renameFails = true) :
    doCopyOrMove env fs source target true = Except.ok fs := by
  unfold doCopyOrMove transferFS renameFS
  rw [h]
  rfl

/-- Witness for the amended C7 at a concrete cross-device move. -/
theorem C7_move_no_fallback_witness :
    doCopyOrMove envRenameFailW fsW "src.txt" "t.txt" true = Except.ok fsW :=
  C7_move_no_fallback envRenameFailW fsW "src.txt" "t.txt" rfl

/-- C8: tree-copy preconditions. `CopyDirectory` returns a precondition
error exactly when the source equals the target or the target is not an
existing directory, and in that case the filesystem is returned untouched —
no directory creation, no transfer, no walking happened. -/
theorem C8_tree_preconditions (md5hex : List Nat → String) (env : EnvFlags) (fs : FS)
    (source target : String) (moveMode fullHashMode recursiveMode : Bool) :
    ((CopyDirectory md5hex env fs source target moveMode fullHashMode recursiveMode).1
        ≠ none ↔
      (source = target ∨ IsFileExist fs target ≠ FileExistStatus.Directory)) ∧
    ((CopyDirectory md5hex env fs source target moveMode fullHashMode recursiveMode).1
        ≠ none →
      (CopyDirectory md5hex env fs source target moveMode fullHashMode recursiveMode).2
        = some fs) := by
  unfold CopyDirectory
  by_cases h1 : source = target
  · simp [h1]
  · by_cases h2 : IsFileExist fs target ≠ FileExistStatus.Directory
    · simp [h1, h2]
    · simp [h1, h2]

/-- Witness for C8: identical source and target are rejected with the
filesystem unchanged. -/
theorem C8_tree_preconditions_witness :
    (CopyDirectory mdW envW fsC10 "dir" "dir" false false true).1 ≠ none ∧
    (CopyDirectory mdW envW fsC10 "dir" "dir" false false true).2 = some fsC10 := by
  have h := C8_tree_preconditions mdW envW fsC10 "dir" "dir" false false true
  have h1 := h.1.mpr (Or.inl rfl)
  exact ⟨h1, h.2 h1⟩

/-- C9: deepest-first removal order. In the reverse lexicographic sort of
any recorded directory list, a path that is a strict slash-prefix of
another (an ancestor directory) appears strictly after it, so the removal
pass reaches every child before its parent. -/
theorem C9_deepest_first (l : List String) (i j : Fin (sortRevLex l).length)
    (r : String)
    (hpre : (sortRevLex l).get j = (sortRevLex l).get i ++ "/" ++ r) :
    j < i := by
  by_contra hle
  push_neg at hle
  have hdata : ((sortRevLex l).get j).data
      = ((sortRevLex l).get i).data ++ ('/' :: r.data) := by
    rw [hpre]
    simp [String.data_append]
  rcases Nat.lt_or_ge i.val j.val with hlt | hge
  · have hpair := List.pairwise_iff_getElem.mp (sortRevLex_sorted l)
      i.val j.val i.isLt j.isLt hlt
    have hfalse : listLeB (((sortRevLex l).get j).data) (((sortRevLex l).get i).data)
        = false := by
      rw [hdata]
      exact listLeB_append_false _ _ (by simp)
    rw [List.get_eq_getElem, List.get_eq_getElem] at hfalse
    rw [revLe] at hpair
    rw [hpair] at hfalse
    cases hfalse
  · have hij : i = j := Fin.le_antisymm hle hge
    subst hij
    have hlen := congrArg List.length hdata
    simp at hlen
/-- Witness for C9: sorting a child path with its parent puts the child
first, so index 0 holds the child and index 1 the parent. -/
theorem C9_deepest_first_witness :
    sortRevLex ["a", "a/b"] = ["a/b", "a"] ∧ (0 : Nat) < 1 :=
  ⟨by decide,
   C9_deepest_first ["a", "a/b"] ⟨1, by decide⟩ ⟨0, by decide⟩ "b" (by decide)⟩

/-- C10: the identical-path precondition of `CopyDirectory` is literal
string equality — the identical error appears exactly when the two
argument strings are equal — so for the distinct strings "dir" and "dir/"
denoting the same directory the check passes and the tree copy proceeds
(no precondition error). -/
theorem C10_identical_literal_equality (md5hex : List Nat → String) (env : EnvFlags)
    (fs : FS) (source target : String) (moveMode fullHashMode recursiveMode : Bool) :
    ((CopyDirectory md5hex env fs source target moveMode fullHashMode recursiveMode).1
        = some TreeCopyError.identical ↔ source = target) ∧
    (CopyDirectory mdW envW fsC10 "dir" "dir/" false false true).1 = none := by
  constructor
  · unfold CopyDirectory
    by_cases h1 : source = target
    · simp [h1]
    · by_cases h2 : IsFileExist fs target ≠ FileExistStatus.Directory
      · simp [h1, h2]
      · simp [h1, h2]
  · rfl

/-- Witness for C10: equal strings trigger the identical error; the
slash-suffixed alias of the same directory does not. -/
theorem C10_identical_literal_equality_witness :
    (CopyDirectory mdW envW fsC10 "dir" "dir" false false true).1
      = some TreeCopyError.identical ∧
    (CopyDirectory mdW envW fsC10 "dir" "dir/" false false true).1 = none :=
  ⟨(C10_identical_literal_equality mdW envW fsC10 "dir" "dir" false false true).1.mpr rfl,
   (C10_identical_literal_equality mdW envW fsC10 "dir" "dir" false false true).2⟩
